import Mathlib

set_option maxRecDepth 8000

attribute [local semireducible] Rat.mul

/-!
Shallow embedding of the PyPlag repository (src/main.py, src/report.py,
src/settings.py, src/submission.py).

The core of the embedding is `postProcess`, modelling
`PyPlag._post_process_jplag_results` (main.py lines 111-214): the extracted
archive is a list of scratch files plus an optional parsed overview document;
the per-file loop is `runLoop`/`processFile`; the rebuilt minimized archive is
the returned `MinArchive`.  Python dicts are modelled as association lists
(`lookupA`/`eraseA`/`setA`), Python floats as `ℚ`, Python `int()` truncation as
`pyInt`, and the fallible operations (`KeyError`, `ValueError`, `IndexError`,
missing `overview.json`) as `Except`/`Option` results.
-/

/-- From src/submission.py: dataclass `PyPlagSubmission` (the `files` dict is
modelled as an association list). -/
structure PyPlagSubmission where
  id : String
  lang : String
  author : String
  files : List (String × String)
deriving DecidableEq

/-- From src/settings.py: dataclass `PyPlagSettings` (paths modelled as strings
resp. path-component lists). -/
structure PyPlagSettings where
  java_cmd : String
  jplag_jar : String
  report_dir : List String
  clustering : Bool
  filter_runs_by_author : Bool
  ignore_unsupported_language : Bool
deriving DecidableEq

/-- From src/report.py: dataclass `PyPlagReport`. -/
structure PyPlagReport where
  status : Int
  stdout : String
  stderr : String
  report_path : String
  report_min_path : Option String
deriving DecidableEq

/-- The result of the external detector subprocess (main.py lines 78-95):
exit status plus captured stdout/stderr. -/
structure DetectorResult where
  returncode : Int
  stdout : String
  stderr : String
deriving DecidableEq

/-- The two similarity values `json.load` extracts from a comparison file's
`similarities` object (main.py line 184 reads `file_data["similarities"][metric]`
for metric in `["MAX", "AVG"]`). -/
structure SimData where
  MAX : ℚ
  AVG : ℚ
deriving DecidableEq

/-- One element of `overview["top_comparisons"]` (main.py lines 189-197 access
`comp["first_submission"]` and `comp["second_submission"]`). -/
structure TopComparison where
  first_submission : String
  second_submission : String
deriving DecidableEq

/-- `overview["submission_ids_to_comparison_file_name"]`: submission id →
(other submission id → comparison file name), as nested association lists. -/
abbrev Index := List (String × List (String × String))

/-- The parsed `overview.json` fields that `_post_process_jplag_results`
touches (main.py lines 127-129, 170-171, 182, 197). -/
structure Overview where
  distributions : List (String × List Int)
  submission_ids_to_comparison_file_name : Index
  top_comparisons : List TopComparison
deriving DecidableEq

/-- One entry of the extracted scratch directory: its file name, its stem
(`Path.stem`), the similarities that `json.load` would return for it, and its
raw byte content (opaque). -/
structure ScratchFile where
  name : String
  stem : String
  sims : SimData
  content : String
deriving DecidableEq

/-- The input `.jplag` archive as extracted (main.py lines 124-125): the parsed
`overview.json` (`none` when the entry is missing or unreadable) and all other
entries. -/
structure Archive where
  overview : Option Overview
  files : List ScratchFile
deriving DecidableEq

/-- The minimized output archive written at main.py lines 202-212: the
rewritten overview plus the surviving scratch files. -/
structure MinArchive where
  overview : Overview
  files : List ScratchFile
deriving DecidableEq

/-- The uncaught Python exceptions that can abort `_post_process_jplag_results`
before the output archive is written. -/
inductive PPError where
  /-- `FileNotFoundError`/parse failure opening `overview.json` (line 128). -/
  | malformedOverview
  /-- `ValueError` unpacking `file_path.stem.split("-")` (line 144). -/
  | malformedEntryName (name : String)
  /-- `KeyError` on `submissions_dict[...]` (lines 145-146). -/
  | unknownSubmission (id : String)
  /-- `KeyError` on `overview["distributions"][metric]` (line 182). -/
  | statsKeyError (metric : String)
  /-- `IndexError` on the distribution bucket assignment (lines 182-187). -/
  | statsIndexError
deriving DecidableEq

/-- The file-system operations performed on a collision entry
(main.py lines 150-167): `json.load`, `file.write(json.dumps({...zeroed...}))`,
`file_path.unlink()`. -/
inductive FileOp where
  | readJson (name : String)
  | writeZeroed (name submission_id1 submission_id2 : String)
  | unlink (name : String)
deriving DecidableEq

/-- Python dict lookup `d[k]` on an association list (first binding wins; a
well-formed dict has unique keys). -/
def lookupA {α : Type} (d : List (String × α)) (k : String) : Option α :=
  match d.find? (fun p => p.1 == k) with
  | some p => some p.2
  | none => none

/-- Python `del d[k]`'s effect on an association list (all bindings of `k`
are dropped; on a well-formed dict there is at most one). -/
def eraseA {α : Type} (d : List (String × α)) (k : String) : List (String × α) :=
  d.filter (fun p => p.1 != k)

/-- Replacing the value bound to `k` (used to model in-place mutation of a
nested dict). -/
def setA {α : Type} (d : List (String × α)) (k : String) (v : α) : List (String × α) :=
  d.map (fun p => if p.1 == k then (k, v) else p)

/-- `overview["submission_ids_to_comparison_file_name"][a][b]`. -/
def lookup2 (idx : Index) (a b : String) : Option String :=
  match lookupA idx a with
  | none => none
  | some inner => lookupA inner b

/-- `del overview["submission_ids_to_comparison_file_name"][a][b]`:
`none` models the `KeyError` raised when `a` is not a key of the outer dict or
`b` is not a key of the inner dict; otherwise the binding `b` is removed from
the inner dict. -/
def delDir (idx : Index) (a b : String) : Option Index :=
  match lookupA idx a with
  | none => none
  | some inner =>
    match lookupA inner b with
    | none => none
    | some _ => some (setA idx a (eraseA inner b))

/-- main.py lines 169-174: the `try: del ...; del ...; except KeyError: pass`
block.  The first failing `del` aborts the `try` body, so when the
`id1 → id2` binding is absent nothing at all is deleted. -/
def delPair (idx : Index) (submission_id1 submission_id2 : String) : Index :=
  match delDir idx submission_id1 submission_id2 with
  | none => idx
  | some idx1 =>
    match delDir idx1 submission_id2 submission_id1 with
    | none => idx1
    | some idx2 => idx2

/-- Python `int()` applied to a float/rational: truncation toward zero.
Since `q.den > 0`, `Int.div` (which rounds toward zero) on the numerator and
denominator is exactly Python's `int()`. -/
def pyInt (q : ℚ) : Int :=
  q.num.tdiv (q.den : Int)

/-- main.py line 177: `SIMILARITY_DISTRIBUTION_SIZE = 100`. -/
def SIMILARITY_DISTRIBUTION_SIZE : Int := 100

/-- main.py lines 183-186: the bucket index
`min(int(value * SIMILARITY_DISTRIBUTION_SIZE), SIMILARITY_DISTRIBUTION_SIZE - 1)`. -/
def bucketZ (v : ℚ) : Int :=
  min (pyInt (v * (SIMILARITY_DISTRIBUTION_SIZE : ℚ))) (SIMILARITY_DISTRIBUTION_SIZE - 1)

/-- Decrement the element at position `i` of a list (out-of-range: no change). -/
def decAt : List Int → Nat → List Int
  | [], _ => []
  | x :: xs, 0 => (x - 1) :: xs
  | x :: xs, n + 1 => x :: decAt xs n

/-- Python `l[i] -= 1` with Python list-index semantics: a negative index
counts from the end, an index out of range raises `IndexError` (`none`). -/
def pyDecAt (l : List Int) (i : Int) : Option (List Int) :=
  let j : Int := if i < 0 then i + l.length else i
  if 0 ≤ j ∧ j < l.length then some (decAt l j.toNat) else none

/-- One iteration of the metric loop at main.py lines 180-187:
`overview["distributions"][metric][bucket] -= 1`. -/
def decMetric (dists : List (String × List Int)) (metric : String) (v : ℚ) :
    Except PPError (List (String × List Int)) :=
  match lookupA dists metric with
  | none => .error (.statsKeyError metric)
  | some l =>
    match pyDecAt l (bucketZ v) with
    | none => .error .statsIndexError
    | some l' => .ok (setA dists metric l')

/-- main.py lines 180-187: correct the `MAX` and then the `AVG` histogram using
the similarities read from the comparison file before it was overwritten. -/
def correctDists (dists : List (String × List Int)) (sims : SimData) :
    Except PPError (List (String × List Int)) :=
  match decMetric dists "MAX" sims.MAX with
  | .error e => .error e
  | .ok d1 => decMetric d1 "AVG" sims.AVG

/-- main.py lines 189-195: the local predicate `filter_comparison`; `false`
exactly when the descriptor's pair matches `(id1, id2)` in either order. -/
def filter_comparison (submission_id1 submission_id2 : String)
    (comp : TopComparison) : Bool :=
  if (comp.first_submission == submission_id1 && comp.second_submission == submission_id2)
      || (comp.first_submission == submission_id2 && comp.second_submission == submission_id1) then
    false
  else
    true

/-- main.py lines 131-138: `ignore_files`. -/
def ignoreFiles : List String :=
  ["basecode", "files", "options.json", "overview.json", "README.txt",
   "submissionFileIndex.json"]

/-- Python `str.split("-")` on the characters of a stem: split at every dash,
keeping empty segments (so `"" ↦ [""]`, `"a-" ↦ ["a", ""]`). -/
def splitOnDash : List Char → List (List Char)
  | [] => [[]]
  | c :: rest =>
    match splitOnDash rest with
    | [] => if c = '-' then [[], [c].tail] else [[c]]
    | g :: gs => if c = '-' then [] :: g :: gs else (c :: g) :: gs

/-- main.py line 144: `submission_id1, submission_id2 = file_path.stem.split("-")`;
`none` models the `ValueError` raised when the split does not have exactly two
components. -/
def splitPair (stem : String) : Option (String × String) :=
  match splitOnDash stem.data with
  | [a, b] => some (String.mk a, String.mk b)
  | _ => none

/-- main.py lines 115-117: `submissions_dict = {s.id: s for s in submissions}`
(a later submission with a duplicate id overwrites an earlier one). -/
def subLookup (submissions : List PyPlagSubmission) (id : String) :
    Option PyPlagSubmission :=
  (submissions.filter (fun s => s.id == id)).getLast?

/-- The body of the `for file_path in tmpfile.iterdir()` loop
(main.py lines 139-200) for a single scratch file.  Returns the updated
overview, whether the file survives into the output archive, and the trace of
file operations performed on it. -/
def processFile (sdict : String → Option PyPlagSubmission) (ov : Overview)
    (f : ScratchFile) : Except PPError (Overview × Bool × List FileOp) :=
  if f.name ∈ ignoreFiles then
    .ok (ov, true, [])
  else
    match splitPair f.stem with
    | none => .error (.malformedEntryName f.name)
    | some (submission_id1, submission_id2) =>
      match sdict submission_id1 with
      | none => .error (.unknownSubmission submission_id1)
      | some submission1 =>
        match sdict submission_id2 with
        | none => .error (.unknownSubmission submission_id2)
        | some submission2 =>
          if submission1.author = submission2.author then
            match correctDists ov.distributions f.sims with
            | .error e => .error e
            | .ok dists' =>
              .ok ({ distributions := dists',
                     submission_ids_to_comparison_file_name :=
                       delPair ov.submission_ids_to_comparison_file_name
                         submission_id1 submission_id2,
                     top_comparisons :=
                       ov.top_comparisons.filter
                         (filter_comparison submission_id1 submission_id2) },
                   false,
                   [FileOp.readJson f.name,
                    FileOp.writeZeroed f.name submission_id1 submission_id2,
                    FileOp.unlink f.name])
          else
            .ok (ov, true, [])

/-- The whole `for` loop (main.py lines 139-200): thread the overview through
every scratch file, collecting the files that were not unlinked and the trace
of file operations. -/
def runLoop (sdict : String → Option PyPlagSubmission) :
    Overview → List ScratchFile →
    Except PPError (Overview × List ScratchFile × List FileOp)
  | ov, [] => .ok (ov, [], [])
  | ov, f :: fs =>
    match processFile sdict ov f with
    | .error e => .error e
    | .ok (ov1, keep, ops1) =>
      match runLoop sdict ov1 fs with
      | .error e => .error e
      | .ok (ov2, kept, ops2) =>
        .ok (ov2, (if keep then [f] else []) ++ kept, ops1 ++ ops2)

/-- `_post_process_jplag_results` (main.py lines 111-214) as a pure function
from the extracted input archive to the minimized output archive.  Any
`.error` result models an uncaught exception raised before the output archive
is written (lines 202-212), in which case no minimized archive exists; the
input `Archive` value is never mutated. -/
def postProcess (submissions : List PyPlagSubmission) (arc : Archive) :
    Except PPError MinArchive :=
  match arc.overview with
  | none => .error .malformedOverview
  | some ov =>
    match runLoop (subLookup submissions) ov arc.files with
    | .error e => .error e
    | .ok (ov', kept, _) => .ok ⟨ov', kept⟩

/-- main.py lines 97-109: the tail of `PyPlag.run` after the subprocess
returns.  `post` is the (lazily modelled) outcome of
`_post_process_jplag_results`, returning the pair
`(report, report_min)` on success. -/
def runFinish (settings : PyPlagSettings) (result : DetectorResult)
    (report : String) (post : Except PPError (String × String)) :
    Except PPError PyPlagReport :=
  if result.returncode = 0 then
    if settings.filter_runs_by_author then
      match post with
      | .error e => .error e
      | .ok (r, m) => .ok ⟨result.returncode, result.stdout, result.stderr, r, some m⟩
    else
      .ok ⟨result.returncode, result.stdout, result.stderr, report, none⟩
  else
    .ok ⟨result.returncode, result.stdout, result.stderr, report, none⟩

/-- A path exists in the modelled file system (a list of existing paths given
as component lists) when some existing path extends it. -/
def pathExists (fs : List (List String)) (p : List String) : Bool :=
  fs.any (fun q => p.isPrefixOf q)

/-- `shutil.rmtree(p)`: delete `p` and everything below it. -/
def rmtreeFs (fs : List (List String)) (p : List String) : List (List String) :=
  fs.filter (fun q => !(p.isPrefixOf q))

/-- main.py lines 26-27 (`PyPlag.__init__`): if the report directory exists it
is recursively removed, before any run is requested. -/
def pyplagInitFs (settings : PyPlagSettings) (fs : List (List String)) :
    List (List String) :=
  if pathExists fs settings.report_dir then rmtreeFs fs settings.report_dir else fs

/-- Projection: the overview produced by a successful `processFile` call. -/
def ovOf (r : Except PPError (Overview × Bool × List FileOp)) : Option Overview :=
  match r with
  | .ok (ov, _, _) => some ov
  | .error _ => none

/-- Projection: the operation trace of a successful `processFile` call. -/
def opsOf (r : Except PPError (Overview × Bool × List FileOp)) : Option (List FileOp) :=
  match r with
  | .ok (_, _, ops) => some ops
  | .error _ => none

/-- Whether a post-processing run produced a minimized archive. -/
def isOkPP (r : Except PPError MinArchive) : Bool :=
  match r with
  | .ok _ => true
  | .error _ => false

/-- Projection: the minimized archive of a successful post-processing run. -/
def minOf (r : Except PPError MinArchive) : Option MinArchive :=
  match r with
  | .ok out => some out
  | .error _ => none

instance {ε α : Type} [DecidableEq ε] [DecidableEq α] :
    DecidableEq (Except ε α) := fun x y =>
  match x, y with
  | .error e, .error e' =>
    decidable_of_iff (e = e')
      ⟨by rintro rfl; rfl, by intro h; injection h⟩
  | .error _, .ok _ => isFalse (fun h => Except.noConfusion h)
  | .ok _, .error _ => isFalse (fun h => Except.noConfusion h)
  | .ok a, .ok a' =>
    decidable_of_iff (a = a')
      ⟨by rintro rfl; rfl, by intro h; injection h⟩

/-! ### Concrete inputs used by witnesses and counterexamples -/

/-- A 100-bucket histogram holding 3 in every bucket. -/
def hist100 : List Int := List.replicate 100 3

def subOne : PyPlagSubmission := ⟨"one", "python3", "t1", [("main.py", "f")]⟩

def subTwo : PyPlagSubmission := ⟨"two", "python3", "t1", [("main.py", "f")]⟩

def subThree : PyPlagSubmission := ⟨"three", "python3", "t2", [("main.py", "g")]⟩

/-- Submissions "one" and "two" share author "t1"; "three" has author "t2". -/
def subsW : List PyPlagSubmission := [subOne, subTwo, subThree]

/-- A collision comparison entry with `MAX = 0.755` and `AVG = 1.0`. -/
def fW1 : ScratchFile := ⟨"one-two.json", "one-two", ⟨mkRat 755 1000, 1⟩, "c1"⟩

/-- An overview carrying an extra `MIN` metric that must stay untouched. -/
def ovW1 : Overview :=
  ⟨[("MAX", hist100), ("AVG", hist100), ("MIN", hist100)], [], []⟩

/-- A collision comparison entry with `MAX = 1.0` and `AVG = 0.5`. -/
def fW5 : ScratchFile := ⟨"one-two.json", "one-two", ⟨1, mkRat 1 2⟩, "cmp12"⟩

/-- A non-collision comparison entry (authors "t1" vs "t2"). -/
def fW5b : ScratchFile := ⟨"one-three.json", "one-three", ⟨mkRat 1 4, mkRat 1 5⟩, "cmp13"⟩

/-- A non-comparison entry, passed through untouched. -/
def fW5c : ScratchFile := ⟨"README.txt", "README", ⟨0, 0⟩, "readme"⟩

def idxW5 : Index :=
  [("one", [("two", "one-two.json"), ("three", "one-three.json")]),
   ("two", [("one", "one-two.json")]),
   ("three", [("one", "one-three.json")])]

def ovW5 : Overview :=
  ⟨[("MAX", hist100), ("AVG", hist100)], idxW5,
   [⟨"two", "one"⟩, ⟨"one", "three"⟩]⟩

def arcW5 : Archive := ⟨some ovW5, [fW5, fW5b, fW5c]⟩

/-- `idxW5` after pruning the collision pair ("one", "two"). -/
def idxW5' : Index :=
  [("one", [("three", "one-three.json")]), ("two", []),
   ("three", [("one", "one-three.json")])]

/-- The minimized archive produced from `arcW5`. -/
def outW5 : MinArchive :=
  ⟨⟨[("MAX", decAt hist100 99), ("AVG", decAt hist100 50)], idxW5',
    [⟨"one", "three"⟩]⟩,
   [fW5b, fW5c]⟩

/-- Two submissions with the same author "x". -/
def subsCX : List PyPlagSubmission :=
  [⟨"a", "python3", "x", []⟩, ⟨"b", "python3", "x", []⟩]

/-- A partially pruned (asymmetric) index: only the direction b → a is
present. -/
def ovCX : Overview :=
  ⟨[("MAX", hist100), ("AVG", hist100)], [("b", [("a", "a-b.json")])], []⟩

def fCX : ScratchFile := ⟨"a-b.json", "a-b", ⟨0, 0⟩, "cab"⟩

def arcCX : Archive := ⟨some ovCX, [fCX]⟩

/-- Two submissions with distinct authors "x" and "y". -/
def subsW3 : List PyPlagSubmission :=
  [⟨"a", "python3", "x", []⟩, ⟨"b", "python3", "y", []⟩]

/-- A symmetric two-entry index for the pair ("a", "b"). -/
def idxW3 : Index := [("a", [("b", "a-b.json")]), ("b", [("a", "a-b.json")])]

def ovW3 : Overview := ⟨[("MAX", hist100), ("AVG", hist100)], idxW3, []⟩

def fW3 : ScratchFile := ⟨"a-b.json", "a-b", ⟨0, 0⟩, "cab"⟩

def arcW3 : Archive := ⟨some ovW3, [fW3]⟩

/-- `arcW3` survives post-processing unchanged (no collision). -/
def outW3 : MinArchive := ⟨ovW3, [fW3]⟩

def settingsW : PyPlagSettings := ⟨"java", "jplag.jar", ["reports"], true, true, false⟩

def resW8 : DetectorResult := ⟨1, "out", "err"⟩

/-- A file system holding the report directory, a report inside it, and an
unrelated path. -/
def fsW10 : List (List String) :=
  [["reports"], ["reports", "python3.jplag"], ["other", "x"]]

/-- The pairwise index is symmetric: whenever `a → b` is present, so is
`b → a`, with the same comparison file name (spec §3: "Symmetric: if A→B
exists, B→A exists, pointing at the same underlying entry"). -/
def symIdx (idx : Index) : Prop :=
  ∀ a b n, lookup2 idx a b = some n → lookup2 idx b a = some n

/-- Every reference in the pairwise index points at a scratch file of the
given list: the file is named by the reference and its stem encodes the same
unordered pair. -/
def refsValid (idx : Index) (fs : List ScratchFile) : Prop :=
  ∀ a b n, lookup2 idx a b = some n →
    ∃ f, f ∈ fs ∧ f.name = n ∧
      (splitPair f.stem = some (a, b) ∨ splitPair f.stem = some (b, a))

/-! ### Association-list lemmas -/

theorem lookupA_nil {α : Type} (k : String) :
    lookupA ([] : List (String × α)) k = none := rfl

theorem lookupA_cons {α : Type} (a : String) (v : α) (d : List (String × α))
    (k : String) :
    lookupA ((a, v) :: d) k = if a = k then some v else lookupA d k := by
  by_cases h : a = k
  · subst h
    simp [lookupA, List.find?]
  · have hb : (a == k) = false := by simp [h]
    simp [lookupA, List.find?, hb, h]

theorem eraseA_cons {α : Type} (a : String) (v : α) (d : List (String × α))
    (k : String) :
    eraseA ((a, v) :: d) k =
      if a = k then eraseA d k else (a, v) :: eraseA d k := by
  by_cases h : a = k
  · have hb : (a != k) = false := by simp [h]
    simp [eraseA, List.filter, hb, h]
  · have hb : (a != k) = true := by simp [h]
    simp [eraseA, List.filter, hb, h]

theorem setA_cons {α : Type} (a : String) (w : α) (d : List (String × α))
    (k : String) (v : α) :
    setA ((a, w) :: d) k v =
      (if a = k then (k, v) else (a, w)) :: setA d k v := by
  by_cases h : a = k
  · have hb : (a == k) = true := by simp [h]
    simp [setA, List.map, hb, h]
  · have hb : (a == k) = false := by simp [h]
    simp [setA, List.map, hb, h]

theorem lookupA_eraseA_self {α : Type} (d : List (String × α)) (k : String) :
    lookupA (eraseA d k) k = none := by
  induction d with
  | nil => rfl
  | cons p d ih =>
    obtain ⟨a, v⟩ := p
    rw [eraseA_cons]
    by_cases h : a = k
    · rw [if_pos h]; exact ih
    · rw [if_neg h, lookupA_cons, if_neg h]; exact ih

theorem lookupA_eraseA_ne {α : Type} (d : List (String × α)) (k k' : String)
    (h : k' ≠ k) : lookupA (eraseA d k) k' = lookupA d k' := by
  induction d with
  | nil => rfl
  | cons p d ih =>
    obtain ⟨a, v⟩ := p
    rw [eraseA_cons, lookupA_cons]
    by_cases ha : a = k
    · have ha' : a ≠ k' := fun hc => h (hc ▸ ha ▸ rfl)
      rw [if_pos ha, if_neg ha']; exact ih
    · rw [if_neg ha, lookupA_cons]
      by_cases hak : a = k'
      · rw [if_pos hak, if_pos hak]
      · rw [if_neg hak, if_neg hak]; exact ih

theorem lookupA_setA_self {α : Type} (d : List (String × α)) (k : String) (v : α) :
    lookupA (setA d k v) k = (lookupA d k).map (fun _ => v) := by
  induction d with
  | nil => rfl
  | cons p d ih =>
    obtain ⟨a, w⟩ := p
    by_cases h : a = k
    · subst h
      simp [setA_cons, lookupA_cons]
    · simpa [setA_cons, lookupA_cons, h] using ih

theorem lookupA_setA_ne {α : Type} (d : List (String × α)) (k k' : String) (v : α)
    (h : k' ≠ k) : lookupA (setA d k v) k' = lookupA d k' := by
  induction d with
  | nil => rfl
  | cons p d ih =>
    obtain ⟨a, w⟩ := p
    rw [setA_cons, lookupA_cons]
    by_cases ha : a = k
    · have hk : k ≠ k' := fun hc => h hc.symm
      have ha' : a ≠ k' := fun hc => h (hc ▸ ha ▸ rfl)
      rw [if_pos ha, lookupA_cons, if_neg hk, if_neg ha']
      exact ih
    · rw [if_neg ha, lookupA_cons]
      by_cases hak : a = k'
      · rw [if_pos hak, if_pos hak]
      · rw [if_neg hak, if_neg hak]; exact ih

/-! ### Semantics of the index-pruning `try` block -/

theorem delDir_eq_none (idx : Index) (a b : String) :
    delDir idx a b = none ↔ lookup2 idx a b = none := by
  unfold delDir lookup2
  cases h : lookupA idx a with
  | none => simp
  | some inner => cases h2 : lookupA inner b <;> simp [h2]

theorem delDir_some (idx : Index) (a b : String) (idx' : Index)
    (h : delDir idx a b = some idx') :
    lookup2 idx' a b = none ∧
    ∀ x y, ¬(x = a ∧ y = b) → lookup2 idx' x y = lookup2 idx x y := by
  unfold delDir at h
  split at h
  next hA => exact absurd h (by simp)
  next inner hA =>
    split at h
    next hB => exact absurd h (by simp)
    next fn hB =>
      simp only [Option.some.injEq] at h
      subst h
      constructor
      · unfold lookup2
        rw [lookupA_setA_self, hA]
        simp [lookupA_eraseA_self]
      · intro x y hxy
        unfold lookup2
        by_cases hx : x = a
        · subst hx
          rw [lookupA_setA_self, hA]
          have hy : y ≠ b := fun hy => hxy ⟨rfl, hy⟩
          simp [lookupA_eraseA_ne _ _ _ hy]
        · rw [lookupA_setA_ne _ _ _ _ hx]

/-- The complete behaviour of the `try: del ...; del ...; except KeyError: pass`
block (main.py lines 169-174): when the `id1 → id2` binding is absent the
whole block is a no-op (the caught `KeyError` aborts it before the second
`del`); when it is present, both directional bindings end up absent and every
other binding is untouched. -/
theorem delPair_lookup2 (idx : Index) (id1 id2 : String) :
    (lookup2 idx id1 id2 = none → delPair idx id1 id2 = idx) ∧
    ∀ m, lookup2 idx id1 id2 = some m →
      lookup2 (delPair idx id1 id2) id1 id2 = none ∧
      lookup2 (delPair idx id1 id2) id2 id1 = none ∧
      ∀ a b, ¬(a = id1 ∧ b = id2) → ¬(a = id2 ∧ b = id1) →
        lookup2 (delPair idx id1 id2) a b = lookup2 idx a b := by
  constructor
  · intro h
    unfold delPair
    rw [(delDir_eq_none idx id1 id2).mpr h]
  · intro m hm
    cases hd1 : delDir idx id1 id2 with
    | none =>
      rw [delDir_eq_none] at hd1
      rw [hd1] at hm
      exact absurd hm (by simp)
    | some idx1 =>
      obtain ⟨h1none, h1frame⟩ := delDir_some idx id1 id2 idx1 hd1
      cases hd2 : delDir idx1 id2 id1 with
      | none =>
        have hDP : delPair idx id1 id2 = idx1 := by
          simp [delPair, hd1, hd2]
        have h2none : lookup2 idx1 id2 id1 = none := (delDir_eq_none _ _ _).mp hd2
        rw [hDP]
        exact ⟨h1none, h2none, fun a b hab1 _ => h1frame a b hab1⟩
      | some idx2 =>
        have hDP : delPair idx id1 id2 = idx2 := by
          simp [delPair, hd1, hd2]
        obtain ⟨h2none, h2frame⟩ := delDir_some idx1 id2 id1 idx2 hd2
        have hne21 : id2 ≠ id1 := by
          intro hEq
          have hnone : delDir idx1 id2 id1 = none := by
            rw [delDir_eq_none, hEq]
            exact hEq ▸ h1none
          rw [hnone] at hd2
          exact absurd hd2 (by simp)
        rw [hDP]
        refine ⟨?_, h2none, ?_⟩
        · rw [h2frame id1 id2 (fun hc => hne21 (hc.left ▸ hc.right ▸ rfl))]
          exact h1none
        · intro a b hab1 hab2
          rw [h2frame a b hab2]
          exact h1frame a b hab1

/-! ### Bucket arithmetic -/

theorem decAt_length (l : List Int) (i : Nat) : (decAt l i).length = l.length := by
  induction l generalizing i with
  | nil => rfl
  | cons x xs ih =>
    cases i with
    | zero => rfl
    | succ n => simp [decAt, ih]

theorem decAt_getElem? (l : List Int) (i j : Nat) :
    (decAt l i)[j]? = if j = i then (l[j]?).map (fun x => x - 1) else l[j]? := by
  induction l generalizing i j with
  | nil => simp [decAt]
  | cons x xs ih =>
    cases i with
    | zero =>
      cases j with
      | zero => simp [decAt]
      | succ m => simp [decAt]
    | succ n =>
      cases j with
      | zero => simp [decAt]
      | succ m => simpa [decAt] using ih n m

theorem pyInt_eq_floor (q : ℚ) (h : 0 ≤ q) : pyInt q = ⌊q⌋ := by
  unfold pyInt
  rw [Rat.floor_def]
  exact Int.tdiv_eq_ediv (Rat.num_nonneg.mpr h) (by positivity)

theorem bucketZ_eq_floor (v : ℚ) (h : 0 ≤ v) : bucketZ v = min ⌊v * 100⌋ 99 := by
  unfold bucketZ SIMILARITY_DISTRIBUTION_SIZE
  rw [pyInt_eq_floor _ (by positivity)]
  norm_num

theorem bucketZ_nonneg (v : ℚ) (h : 0 ≤ v) : 0 ≤ bucketZ v := by
  unfold bucketZ SIMILARITY_DISTRIBUTION_SIZE
  refine le_min ?_ (by norm_num)
  exact Int.tdiv_nonneg (Rat.num_nonneg.mpr (by positivity)) (by positivity)

theorem bucketZ_le (v : ℚ) : bucketZ v ≤ 99 := by
  unfold bucketZ SIMILARITY_DISTRIBUTION_SIZE
  exact min_le_right _ _

theorem decMetric_ok (dists : List (String × List Int)) (metric : String) (v : ℚ)
    (l : List Int) (hl : lookupA dists metric = some l)
    (h0 : 0 ≤ bucketZ v) (hlt : bucketZ v < (l.length : Int)) :
    decMetric dists metric v = .ok (setA dists metric (decAt l (bucketZ v).toNat)) := by
  unfold decMetric
  rw [hl]
  unfold pyDecAt
  have hnot : ¬ (bucketZ v < 0) := not_lt.mpr h0
  simp only [if_neg hnot]
  rw [if_pos ⟨h0, hlt⟩]

theorem correctDists_ok (dists : List (String × List Int)) (sims : SimData)
    (dM dA : List Int)
    (hM : lookupA dists "MAX" = some dM) (hA : lookupA dists "AVG" = some dA)
    (h0M : 0 ≤ bucketZ sims.MAX) (hltM : bucketZ sims.MAX < (dM.length : Int))
    (h0A : 0 ≤ bucketZ sims.AVG) (hltA : bucketZ sims.AVG < (dA.length : Int)) :
    correctDists dists sims =
      .ok (setA (setA dists "MAX" (decAt dM (bucketZ sims.MAX).toNat)) "AVG"
        (decAt dA (bucketZ sims.AVG).toNat)) := by
  unfold correctDists
  rw [decMetric_ok dists "MAX" sims.MAX dM hM h0M hltM]
  dsimp only
  have hA' : lookupA (setA dists "MAX" (decAt dM (bucketZ sims.MAX).toNat)) "AVG"
      = some dA := by
    rw [lookupA_setA_ne _ _ _ _ (by decide)]
    exact hA
  rw [decMetric_ok _ "AVG" sims.AVG dA hA' h0A hltA]

/-! ### Behaviour of the per-file loop body -/

theorem processFile_ignored (sdict : String → Option PyPlagSubmission)
    (ov : Overview) (f : ScratchFile) (h : f.name ∈ ignoreFiles) :
    processFile sdict ov f = .ok (ov, true, []) := by
  unfold processFile
  rw [if_pos h]

theorem processFile_noncollision (sdict : String → Option PyPlagSubmission)
    (ov : Overview) (f : ScratchFile) (id1 id2 : String)
    (s1 s2 : PyPlagSubmission)
    (hig : f.name ∉ ignoreFiles) (hsp : splitPair f.stem = some (id1, id2))
    (h1 : sdict id1 = some s1) (h2 : sdict id2 = some s2)
    (hne : s1.author ≠ s2.author) :
    processFile sdict ov f = .ok (ov, true, []) := by
  simp [processFile, hig, hsp, h1, h2, hne]

theorem processFile_collision (sdict : String → Option PyPlagSubmission)
    (ov : Overview) (f : ScratchFile) (id1 id2 : String)
    (s1 s2 : PyPlagSubmission) (dists' : List (String × List Int))
    (hig : f.name ∉ ignoreFiles) (hsp : splitPair f.stem = some (id1, id2))
    (h1 : sdict id1 = some s1) (h2 : sdict id2 = some s2)
    (heq : s1.author = s2.author)
    (hcd : correctDists ov.distributions f.sims = .ok dists') :
    processFile sdict ov f =
      .ok ({ distributions := dists',
             submission_ids_to_comparison_file_name :=
               delPair ov.submission_ids_to_comparison_file_name id1 id2,
             top_comparisons :=
               ov.top_comparisons.filter (filter_comparison id1 id2) },
           false,
           [FileOp.readJson f.name, FileOp.writeZeroed f.name id1 id2,
            FileOp.unlink f.name]) := by
  simp [processFile, hig, hsp, h1, h2, heq, hcd]

theorem processFile_ok_cases (sdict : String → Option PyPlagSubmission)
    (ov : Overview) (f : ScratchFile) (ov' : Overview) (keep : Bool)
    (ops : List FileOp)
    (h : processFile sdict ov f = .ok (ov', keep, ops)) :
    (f.name ∈ ignoreFiles ∧ ov' = ov ∧ keep = true ∧ ops = []) ∨
    (f.name ∉ ignoreFiles ∧ ∃ id1 id2 s1 s2,
      splitPair f.stem = some (id1, id2) ∧
      sdict id1 = some s1 ∧ sdict id2 = some s2 ∧
      ((s1.author ≠ s2.author ∧ ov' = ov ∧ keep = true ∧ ops = []) ∨
       (s1.author = s2.author ∧ keep = false ∧
        ops = [FileOp.readJson f.name, FileOp.writeZeroed f.name id1 id2,
               FileOp.unlink f.name] ∧
        ∃ dists', correctDists ov.distributions f.sims = .ok dists' ∧
          ov' = { distributions := dists',
                  submission_ids_to_comparison_file_name :=
                    delPair ov.submission_ids_to_comparison_file_name id1 id2,
                  top_comparisons :=
                    ov.top_comparisons.filter (filter_comparison id1 id2) }))) := by
  unfold processFile at h
  split at h
  next hig =>
    left
    simp only [Except.ok.injEq, Prod.mk.injEq] at h
    exact ⟨hig, h.1.symm, h.2.1.symm, h.2.2.symm⟩
  next hig =>
    right
    refine ⟨hig, ?_⟩
    split at h
    next hsp => exact absurd h (by simp)
    next id1 id2 hsp =>
      refine ⟨id1, id2, ?_⟩
      split at h
      next h1 => exact absurd h (by simp)
      next s1 h1 =>
        refine ⟨s1, ?_⟩
        split at h
        next h2 => exact absurd h (by simp)
        next s2 h2 =>
          refine ⟨s2, hsp, h1, h2, ?_⟩
          split at h
          next heq =>
            split at h
            next e hcd => exact absurd h (by simp)
            next dists' hcd =>
              simp only [Except.ok.injEq, Prod.mk.injEq] at h
              exact .inr ⟨heq, h.2.1.symm, h.2.2.symm, dists', hcd, h.1.symm⟩
          next hne =>
            simp only [Except.ok.injEq, Prod.mk.injEq] at h
            exact .inl ⟨hne, h.1.symm, h.2.1.symm, h.2.2.symm⟩

/-! ### Behaviour of the whole loop -/

theorem runLoop_cons_ok (sdict : String → Option PyPlagSubmission)
    (ov : Overview) (f : ScratchFile) (fs : List ScratchFile)
    (ov2 : Overview) (kept : List ScratchFile) (ops : List FileOp)
    (h : runLoop sdict ov (f :: fs) = .ok (ov2, kept, ops)) :
    ∃ ov1 keep ops1 kept2 ops2,
      processFile sdict ov f = .ok (ov1, keep, ops1) ∧
      runLoop sdict ov1 fs = .ok (ov2, kept2, ops2) ∧
      kept = (if keep then [f] else []) ++ kept2 ∧ ops = ops1 ++ ops2 := by
  unfold runLoop at h
  split at h
  next e hpf => exact absurd h (by simp)
  next ov1 keep ops1 hpf =>
    split at h
    next e hrl => exact absurd h (by simp)
    next ov2' kept2 ops2 hrl =>
      simp only [Except.ok.injEq, Prod.mk.injEq] at h
      obtain ⟨hov, hk, ho⟩ := h
      exact ⟨ov1, keep, ops1, kept2, ops2, hpf, hov ▸ hrl, hk.symm, ho.symm⟩

theorem runLoop_nil_ok (sdict : String → Option PyPlagSubmission) (ov : Overview)
    (ov' : Overview) (kept : List ScratchFile) (ops : List FileOp)
    (h : runLoop sdict ov [] = .ok (ov', kept, ops)) :
    ov' = ov ∧ kept = [] ∧ ops = [] := by
  unfold runLoop at h
  simp only [Except.ok.injEq, Prod.mk.injEq] at h
  exact ⟨h.1.symm, h.2.1.symm, h.2.2.symm⟩

theorem runLoop_kept_mem (sdict : String → Option PyPlagSubmission)
    (files : List ScratchFile) : ∀ (ov ov' : Overview) (kept : List ScratchFile)
    (ops : List FileOp), runLoop sdict ov files = .ok (ov', kept, ops) →
    ∀ g ∈ kept, g ∈ files ∧
      (g.name ∈ ignoreFiles ∨
       ∃ id1 id2 s1 s2, splitPair g.stem = some (id1, id2) ∧
         sdict id1 = some s1 ∧ sdict id2 = some s2 ∧ s1.author ≠ s2.author) := by
  induction files with
  | nil =>
    intro ov ov' kept ops h g hg
    obtain ⟨-, hk, -⟩ := runLoop_nil_ok sdict ov ov' kept ops h
    subst hk
    exact absurd hg (by simp)
  | cons f fs ih =>
    intro ov ov' kept ops h g hg
    obtain ⟨ov1, keep, ops1, kept2, ops2, hpf, hrl, hkept, -⟩ :=
      runLoop_cons_ok sdict ov f fs ov' kept ops h
    subst hkept
    rw [List.mem_append] at hg
    rcases hg with hg | hg
    · have hgf : g = f := by
        cases keep <;> simp at hg
        exact hg
      subst hgf
      refine ⟨List.mem_cons_self _ _, ?_⟩
      rcases processFile_ok_cases sdict ov g ov1 keep ops1 hpf with
        ⟨higr, -, -, -⟩ | ⟨hig, id1, id2, s1, s2, hsp, h1, h2, hcase⟩
      · exact .inl higr
      · rcases hcase with ⟨hne, -, -, -⟩ | ⟨-, hkeep, -, -⟩
        · exact .inr ⟨id1, id2, s1, s2, hsp, h1, h2, hne⟩
        · subst hkeep
          simp at hg
    · obtain ⟨hmem, hp⟩ := ih ov1 ov' kept2 ops2 hrl g hg
      exact ⟨List.mem_cons_of_mem _ hmem, hp⟩

theorem runLoop_mem_kept (sdict : String → Option PyPlagSubmission)
    (files : List ScratchFile) : ∀ (ov ov' : Overview) (kept : List ScratchFile)
    (ops : List FileOp), runLoop sdict ov files = .ok (ov', kept, ops) →
    ∀ g ∈ files, (∀ ov₀, processFile sdict ov₀ g = .ok (ov₀, true, [])) →
    g ∈ kept := by
  induction files with
  | nil =>
    intro ov ov' kept ops h g hg
    exact absurd hg (by simp)
  | cons f fs ih =>
    intro ov ov' kept ops h g hg hstay
    obtain ⟨ov1, keep, ops1, kept2, ops2, hpf, hrl, hkept, -⟩ :=
      runLoop_cons_ok sdict ov f fs ov' kept ops h
    subst hkept
    rw [List.mem_cons] at hg
    rcases hg with hg | hg
    · subst hg
      rw [hstay ov] at hpf
      simp only [Except.ok.injEq, Prod.mk.injEq] at hpf
      obtain ⟨-, hkeep, -⟩ := hpf
      rw [← hkeep]
      simp
    · exact List.mem_append_right _ (ih ov1 ov' kept2 ops2 hrl g hg hstay)

theorem runLoop_ok_processed (sdict : String → Option PyPlagSubmission)
    (files : List ScratchFile) : ∀ (ov ov' : Overview) (kept : List ScratchFile)
    (ops : List FileOp), runLoop sdict ov files = .ok (ov', kept, ops) →
    ∀ g ∈ files, g.name ∉ ignoreFiles →
    ∃ id1 id2 s1 s2, splitPair g.stem = some (id1, id2) ∧
      sdict id1 = some s1 ∧ sdict id2 = some s2 := by
  induction files with
  | nil =>
    intro ov ov' kept ops h g hg
    exact absurd hg (by simp)
  | cons f fs ih =>
    intro ov ov' kept ops h g hg hig
    obtain ⟨ov1, keep, ops1, kept2, ops2, hpf, hrl, -, -⟩ :=
      runLoop_cons_ok sdict ov f fs ov' kept ops h
    rw [List.mem_cons] at hg
    rcases hg with hg | hg
    · subst hg
      rcases processFile_ok_cases sdict ov g ov1 keep ops1 hpf with
        ⟨higr, -, -, -⟩ | ⟨-, id1, id2, s1, s2, hsp, h1, h2, -⟩
      · exact absurd higr hig
      · exact ⟨id1, id2, s1, s2, hsp, h1, h2⟩
    · exact ih ov1 ov' kept2 ops2 hrl g hg hig

theorem processFile_top_mono (sdict : String → Option PyPlagSubmission)
    (ov : Overview) (f : ScratchFile) (ov1 : Overview) (keep : Bool)
    (ops : List FileOp) (h : processFile sdict ov f = .ok (ov1, keep, ops)) :
    ∀ c ∈ ov1.top_comparisons, c ∈ ov.top_comparisons := by
  intro c hc
  rcases processFile_ok_cases sdict ov f ov1 keep ops h with
    ⟨-, hov, -, -⟩ | ⟨-, id1, id2, s1, s2, -, -, -, hcase⟩
  · subst hov; exact hc
  · rcases hcase with ⟨-, hov, -, -⟩ | ⟨-, -, -, dists', -, hov⟩
    · subst hov; exact hc
    · subst hov
      simp only at hc
      exact List.mem_of_mem_filter hc

theorem runLoop_top_mono (sdict : String → Option PyPlagSubmission)
    (files : List ScratchFile) : ∀ (ov ov' : Overview) (kept : List ScratchFile)
    (ops : List FileOp), runLoop sdict ov files = .ok (ov', kept, ops) →
    ∀ c ∈ ov'.top_comparisons, c ∈ ov.top_comparisons := by
  induction files with
  | nil =>
    intro ov ov' kept ops h c hc
    obtain ⟨hov, -, -⟩ := runLoop_nil_ok sdict ov ov' kept ops h
    subst hov; exact hc
  | cons f fs ih =>
    intro ov ov' kept ops h c hc
    obtain ⟨ov1, keep, ops1, kept2, ops2, hpf, hrl, -, -⟩ :=
      runLoop_cons_ok sdict ov f fs ov' kept ops h
    exact processFile_top_mono sdict ov f ov1 keep ops1 hpf c
      (ih ov1 ov' kept2 ops2 hrl c hc)

/-! ### Unordered-pair matching for top_comparisons -/

theorem pair_multiset_eq {α : Type} [DecidableEq α] (a b c d : α) :
    ({a, b} : Multiset α) = {c, d} ↔ (a = c ∧ b = d) ∨ (a = d ∧ b = c) := by
  constructor
  · intro h
    rcases Multiset.cons_eq_cons.mp h with ⟨hac, hbd⟩ | ⟨hac, cs, h1, h2⟩
    · exact .inl ⟨hac, Multiset.singleton_inj.mp hbd⟩
    · obtain ⟨hbc, -⟩ := (Multiset.singleton_eq_cons_iff _).mp h1
      obtain ⟨hda, -⟩ := (Multiset.singleton_eq_cons_iff _).mp h2
      exact .inr ⟨hda.symm, hbc⟩
  · rintro (⟨rfl, rfl⟩ | ⟨rfl, rfl⟩)
    · rfl
    · exact Multiset.cons_swap a b 0

theorem filter_comparison_eq_true_iff (submission_id1 submission_id2 : String)
    (comp : TopComparison) :
    filter_comparison submission_id1 submission_id2 comp = true ↔
      ¬((comp.first_submission = submission_id1 ∧
         comp.second_submission = submission_id2) ∨
        (comp.first_submission = submission_id2 ∧
         comp.second_submission = submission_id1)) := by
  unfold filter_comparison
  split
  next hb =>
    simp only [Bool.or_eq_true, Bool.and_eq_true, beq_iff_eq] at hb
    simp [hb]
  next hb =>
    simp only [Bool.or_eq_true, Bool.and_eq_true, beq_iff_eq] at hb
    simp [hb]

theorem filter_comparison_true_iff_pair_ne (submission_id1 submission_id2 : String)
    (comp : TopComparison) :
    filter_comparison submission_id1 submission_id2 comp = true ↔
      ({comp.first_submission, comp.second_submission} : Multiset String) ≠
        {submission_id1, submission_id2} := by
  rw [filter_comparison_eq_true_iff]
  exact not_congr (pair_multiset_eq _ _ _ _).symm

theorem runLoop_collision_top (sdict : String → Option PyPlagSubmission)
    (files : List ScratchFile) :
    ∀ (ov ov' : Overview) (kept : List ScratchFile) (ops : List FileOp)
      (f : ScratchFile) (id1 id2 : String) (s1 s2 : PyPlagSubmission),
    runLoop sdict ov files = .ok (ov', kept, ops) →
    f ∈ files → f.name ∉ ignoreFiles → splitPair f.stem = some (id1, id2) →
    sdict id1 = some s1 → sdict id2 = some s2 → s1.author = s2.author →
    ∀ c ∈ ov'.top_comparisons, filter_comparison id1 id2 c = true := by
  induction files with
  | nil =>
    intro ov ov' kept ops f id1 id2 s1 s2 h hf
    exact absurd hf (by simp)
  | cons g gs ih =>
    intro ov ov' kept ops f id1 id2 s1 s2 h hf hig hsp h1 h2 heq c hc
    obtain ⟨ov1, keep, ops1, kept2, ops2, hpf, hrl, -, -⟩ :=
      runLoop_cons_ok sdict ov g gs ov' kept ops h
    rw [List.mem_cons] at hf
    rcases hf with hfg | hf
    · subst hfg
      rcases processFile_ok_cases sdict ov f ov1 keep ops1 hpf with
        ⟨higr, -, -, -⟩ | ⟨-, id1', id2', s1', s2', hsp', h1', h2', hcase⟩
      · exact absurd higr hig
      · rw [hsp'] at hsp
        simp only [Option.some.injEq, Prod.mk.injEq] at hsp
        obtain ⟨hid1, hid2⟩ := hsp
        subst hid1; subst hid2
        rw [h1'] at h1
        rw [h2'] at h2
        simp only [Option.some.injEq] at h1 h2
        subst h1; subst h2
        rcases hcase with ⟨hne, -, -, -⟩ | ⟨-, -, -, dists', -, hov⟩
        · exact absurd heq hne
        · have hc1 : c ∈ ov1.top_comparisons :=
            runLoop_top_mono sdict gs ov1 ov' kept2 ops2 hrl c hc
          rw [hov] at hc1
          simp only at hc1
          exact List.of_mem_filter hc1
    · exact ih ov1 ov' kept2 ops2 f id1 id2 s1 s2 hrl hf hig hsp h1 h2 heq c hc

/-! ### Index-consistency invariant machinery -/

theorem refsValid_of_subset (idx : Index) (fs fs' : List ScratchFile)
    (h : refsValid idx fs) (hsub : ∀ f, f ∈ fs → f ∈ fs') : refsValid idx fs' := by
  intro a b n hl
  obtain ⟨f, hf, hname, hstem⟩ := h a b n hl
  exact ⟨f, hsub f hf, hname, hstem⟩

theorem step_collision_inv (idx : Index) (id1 id2 : String) (hsym : symIdx idx) :
    symIdx (delPair idx id1 id2) ∧
    ∀ a b n, lookup2 (delPair idx id1 id2) a b = some n →
      lookup2 idx a b = some n ∧ ¬(a = id1 ∧ b = id2) ∧ ¬(a = id2 ∧ b = id1) := by
  cases hm : lookup2 idx id1 id2 with
  | none =>
    have h21 : lookup2 idx id2 id1 = none := by
      cases h' : lookup2 idx id2 id1 with
      | none => rfl
      | some n =>
        have := hsym id2 id1 n h'
        rw [hm] at this
        exact absurd this (by simp)
    have hDP : delPair idx id1 id2 = idx := (delPair_lookup2 idx id1 id2).1 hm
    rw [hDP]
    refine ⟨hsym, fun a b n hl => ⟨hl, ?_, ?_⟩⟩
    · rintro ⟨rfl, rfl⟩
      rw [hm] at hl
      exact absurd hl (by simp)
    · rintro ⟨rfl, rfl⟩
      rw [h21] at hl
      exact absurd hl (by simp)
  | some m =>
    obtain ⟨h12n, h21n, hframe⟩ := (delPair_lookup2 idx id1 id2).2 m hm
    have hsub : ∀ a b n, lookup2 (delPair idx id1 id2) a b = some n →
        lookup2 idx a b = some n ∧ ¬(a = id1 ∧ b = id2) ∧ ¬(a = id2 ∧ b = id1) := by
      intro a b n hl
      by_cases hab1 : a = id1 ∧ b = id2
      · obtain ⟨rfl, rfl⟩ := hab1
        rw [h12n] at hl
        exact absurd hl (by simp)
      · by_cases hab2 : a = id2 ∧ b = id1
        · obtain ⟨rfl, rfl⟩ := hab2
          rw [h21n] at hl
          exact absurd hl (by simp)
        · rw [hframe a b hab1 hab2] at hl
          exact ⟨hl, hab1, hab2⟩
    refine ⟨?_, hsub⟩
    intro a b n hl
    obtain ⟨hidx, hab1, hab2⟩ := hsub a b n hl
    have hba1 : ¬(b = id1 ∧ a = id2) := fun hc => hab2 ⟨hc.2, hc.1⟩
    have hba2 : ¬(b = id2 ∧ a = id1) := fun hc => hab1 ⟨hc.2, hc.1⟩
    rw [hframe b a hba1 hba2]
    exact hsym a b n hidx

theorem runLoop_refs (sdict : String → Option PyPlagSubmission)
    (files : List ScratchFile) :
    ∀ (extra : List ScratchFile) (ov ov' : Overview) (kept : List ScratchFile)
      (ops : List FileOp),
    runLoop sdict ov files = .ok (ov', kept, ops) →
    symIdx ov.submission_ids_to_comparison_file_name →
    refsValid ov.submission_ids_to_comparison_file_name (files ++ extra) →
    symIdx ov'.submission_ids_to_comparison_file_name ∧
    refsValid ov'.submission_ids_to_comparison_file_name (kept ++ extra) := by
  induction files with
  | nil =>
    intro extra ov ov' kept ops h hsym href
    obtain ⟨hov, hk, -⟩ := runLoop_nil_ok sdict ov ov' kept ops h
    subst hov; subst hk
    exact ⟨hsym, href⟩
  | cons f fs ih =>
    intro extra ov ov' kept ops h hsym href
    obtain ⟨ov1, keep, ops1, kept2, ops2, hpf, hrl, hkept, -⟩ :=
      runLoop_cons_ok sdict ov f fs ov' kept ops h
    rcases processFile_ok_cases sdict ov f ov1 keep ops1 hpf with
      ⟨-, hov, hkeep, -⟩ | ⟨-, id1, id2, s1, s2, hsp, -, -, hcase⟩
    · rw [hov] at hrl
      rw [hkeep] at hkept
      simp only [if_true] at hkept
      have href' : refsValid ov.submission_ids_to_comparison_file_name
          (fs ++ (f :: extra)) := by
        refine refsValid_of_subset _ _ _ href ?_
        intro g hg
        simp only [List.cons_append, List.mem_cons, List.mem_append] at hg ⊢
        tauto
      obtain ⟨hs2, hr2⟩ := ih (f :: extra) ov ov' kept2 ops2 hrl hsym href'
      rw [hkept]
      refine ⟨hs2, refsValid_of_subset _ _ _ hr2 ?_⟩
      intro g hg
      simp only [List.mem_append, List.mem_cons, List.cons_append,
        List.singleton_append] at hg ⊢
      tauto
    · rcases hcase with ⟨-, hov, hkeep, -⟩ | ⟨-, hkeep, -, dists', -, hov⟩
      · -- different authors: nothing changes, file is kept
        rw [hov] at hrl
        rw [hkeep] at hkept
        simp only [if_true] at hkept
        have href' : refsValid ov.submission_ids_to_comparison_file_name
            (fs ++ (f :: extra)) := by
          refine refsValid_of_subset _ _ _ href ?_
          intro g hg
          simp only [List.cons_append, List.mem_cons, List.mem_append] at hg ⊢
          tauto
        obtain ⟨hs2, hr2⟩ := ih (f :: extra) ov ov' kept2 ops2 hrl hsym href'
        rw [hkept]
        refine ⟨hs2, refsValid_of_subset _ _ _ hr2 ?_⟩
        intro g hg
        simp only [List.mem_append, List.mem_cons, List.cons_append,
          List.singleton_append] at hg ⊢
        tauto
      · -- collision: the file is removed and both index directions pruned
        obtain ⟨hsym1, hsub⟩ :=
          step_collision_inv ov.submission_ids_to_comparison_file_name id1 id2 hsym
        have hsym1' : symIdx ov1.submission_ids_to_comparison_file_name := by
          rw [hov]; exact hsym1
        have href1 : refsValid ov1.submission_ids_to_comparison_file_name
            (fs ++ extra) := by
          rw [hov]
          intro a b n hl
          obtain ⟨hidx, hab1, hab2⟩ := hsub a b n hl
          obtain ⟨f₀, hf₀, hname, hstem⟩ := href a b n hidx
          rw [List.cons_append, List.mem_cons] at hf₀
          rcases hf₀ with hf₀ | hf₀
          · subst hf₀
            rcases hstem with hstem | hstem <;> rw [hsp] at hstem <;>
              simp only [Option.some.injEq, Prod.mk.injEq] at hstem
            · exact absurd ⟨hstem.1.symm, hstem.2.symm⟩ hab1
            · exact absurd ⟨hstem.2.symm, hstem.1.symm⟩ hab2
          · exact ⟨f₀, hf₀, hname, hstem⟩
        obtain ⟨hs2, hr2⟩ := ih extra ov1 ov' kept2 ops2 hrl hsym1' href1
        rw [hkeep] at hkept
        simp only [if_neg (by simp : ¬ (false = true))] at hkept
        rw [hkept]
        simpa using ⟨hs2, hr2⟩

theorem postProcess_ok_inv (subs : List PyPlagSubmission) (arc : Archive)
    (out : MinArchive) (h : postProcess subs arc = .ok out) :
    ∃ ov, arc.overview = some ov ∧ ∃ ops,
      runLoop (subLookup subs) ov arc.files = .ok (out.overview, out.files, ops) := by
  unfold postProcess at h
  split at h
  next hov => exact absurd h (by simp)
  next ov hov =>
    split at h
    next e hrl => exact absurd h (by simp)
    next ov' kept ops hrl =>
      simp only [Except.ok.injEq] at h
      refine ⟨ov, hov, ops, ?_⟩
      rw [← h]
      exact hrl

theorem lookupA_some_mem {α : Type} (d : List (String × α)) (k : String) (v : α)
    (h : lookupA d k = some v) : (k, v) ∈ d := by
  induction d with
  | nil => exact absurd h (by simp [lookupA_nil])
  | cons p d ih =>
    obtain ⟨a, w⟩ := p
    rw [lookupA_cons] at h
    by_cases ha : a = k
    · rw [if_pos ha] at h
      simp only [Option.some.injEq] at h
      subst h; subst ha
      exact List.mem_cons_self _ _
    · rw [if_neg ha] at h
      exact List.mem_cons_of_mem _ (ih h)

theorem lookup2_some_mem (idx : Index) (a b n : String)
    (h : lookup2 idx a b = some n) :
    ∃ inner, (a, inner) ∈ idx ∧ (b, n) ∈ inner := by
  unfold lookup2 at h
  split at h
  next hA => exact absurd h (by simp)
  next inner hA => exact ⟨inner, lookupA_some_mem _ _ _ hA, lookupA_some_mem _ _ _ h⟩

/-! ### Claims -/

/-- Claim C1: for every comparison record removed as a collision, the filter
reads the record's MAX and AVG similarity values before any mutation of the
record (the operation trace is read, then overwrite, then unlink, and the
buckets are computed from the record's original similarities), and for each of
the two metrics decrements `distributions[metric][bucket]` by exactly 1, where
`bucket = floor(value * 100)` clamped to `[0, 99]`; metrics other than MAX and
AVG are not changed. -/
theorem C1_distribution_decrement
    (sdict : String → Option PyPlagSubmission) (ov : Overview) (f : ScratchFile)
    (id1 id2 : String) (s1 s2 : PyPlagSubmission) (dM dA : List Int)
    (hig : f.name ∉ ignoreFiles)
    (hsp : splitPair f.stem = some (id1, id2))
    (h1 : sdict id1 = some s1) (h2 : sdict id2 = some s2)
    (heq : s1.author = s2.author)
    (hM : lookupA ov.distributions "MAX" = some dM)
    (hA : lookupA ov.distributions "AVG" = some dA)
    (hlM : dM.length = 100) (hlA : dA.length = 100)
    (hvM : 0 ≤ f.sims.MAX) (hvA : 0 ≤ f.sims.AVG) :
    ∃ ov', processFile sdict ov f =
        .ok (ov', false,
          [FileOp.readJson f.name, FileOp.writeZeroed f.name id1 id2,
           FileOp.unlink f.name]) ∧
      lookupA ov'.distributions "MAX"
        = some (decAt dM (min ⌊f.sims.MAX * 100⌋ 99).toNat) ∧
      lookupA ov'.distributions "AVG"
        = some (decAt dA (min ⌊f.sims.AVG * 100⌋ 99).toNat) ∧
      (∀ j, (decAt dM (min ⌊f.sims.MAX * 100⌋ 99).toNat)[j]? =
        if j = (min ⌊f.sims.MAX * 100⌋ 99).toNat
        then (dM[j]?).map (fun x => x - 1) else dM[j]?) ∧
      (∀ j, (decAt dA (min ⌊f.sims.AVG * 100⌋ 99).toNat)[j]? =
        if j = (min ⌊f.sims.AVG * 100⌋ 99).toNat
        then (dA[j]?).map (fun x => x - 1) else dA[j]?) ∧
      (∀ metric, metric ≠ "MAX" → metric ≠ "AVG" →
        lookupA ov'.distributions metric = lookupA ov.distributions metric) := by
  have hbM : bucketZ f.sims.MAX = min ⌊f.sims.MAX * 100⌋ 99 := bucketZ_eq_floor _ hvM
  have hbA : bucketZ f.sims.AVG = min ⌊f.sims.AVG * 100⌋ 99 := bucketZ_eq_floor _ hvA
  have h0M : 0 ≤ bucketZ f.sims.MAX := bucketZ_nonneg _ hvM
  have h0A : 0 ≤ bucketZ f.sims.AVG := bucketZ_nonneg _ hvA
  have hltM : bucketZ f.sims.MAX < (dM.length : Int) := by
    rw [hlM]; exact lt_of_le_of_lt (bucketZ_le _) (by norm_num)
  have hltA : bucketZ f.sims.AVG < (dA.length : Int) := by
    rw [hlA]; exact lt_of_le_of_lt (bucketZ_le _) (by norm_num)
  have hcd := correctDists_ok ov.distributions f.sims dM dA hM hA h0M hltM h0A hltA
  refine ⟨_, processFile_collision sdict ov f id1 id2 s1 s2 _ hig hsp h1 h2 heq hcd,
    ?_, ?_, ?_, ?_, ?_⟩
  · rw [← hbM]
    simp only []
    rw [lookupA_setA_ne _ _ _ _ (by decide), lookupA_setA_self, hM]
    rfl
  · rw [← hbA]
    simp only []
    rw [lookupA_setA_self, lookupA_setA_ne _ _ _ _ (by decide), hA]
    rfl
  · intro j
    exact decAt_getElem? dM _ j
  · intro j
    exact decAt_getElem? dA _ j
  · intro metric hMne hAne
    simp only []
    rw [lookupA_setA_ne _ _ _ _ hAne, lookupA_setA_ne _ _ _ _ hMne]

/-- Claim C1 witness: at the concrete collision record `fW1` with
`MAX = 0.755` and `AVG = 1.0`, bucket 75 of the MAX histogram and bucket 99 of
the AVG histogram are decremented, and the MIN histogram is untouched. -/
theorem C1_witness :
    ∃ ov', processFile (subLookup subsW) ovW1 fW1 =
        .ok (ov', false,
          [FileOp.readJson "one-two.json",
           FileOp.writeZeroed "one-two.json" "one" "two",
           FileOp.unlink "one-two.json"]) ∧
      lookupA ov'.distributions "MAX" = some (decAt hist100 75) ∧
      lookupA ov'.distributions "AVG" = some (decAt hist100 99) ∧
      lookupA ov'.distributions "MIN" = some hist100 := by
  have e75 : (min ⌊fW1.sims.MAX * 100⌋ 99).toNat = 75 := by
    rw [← pyInt_eq_floor (fW1.sims.MAX * 100) (by decide)]
    decide
  have e99 : (min ⌊fW1.sims.AVG * 100⌋ 99).toNat = 99 := by
    rw [← pyInt_eq_floor (fW1.sims.AVG * 100) (by decide)]
    decide
  obtain ⟨ov', hpf, hMx, hAv, -, -, hframe⟩ :=
    C1_distribution_decrement (subLookup subsW) ovW1 fW1 "one" "two" subOne subTwo
      hist100 hist100 (by decide) (by decide) (by decide) (by decide) (by decide)
      (by decide) (by decide) (by decide) (by decide) (by decide) (by decide)
  rw [e75] at hMx
  rw [e99] at hAv
  have hMin : lookupA ov'.distributions "MIN" = some hist100 := by
    rw [hframe "MIN" (by decide) (by decide)]
    decide
  exact ⟨ov', hpf, hMx, hAv, hMin⟩

/-- Claim C2 counterexample: on the partially pruned index of `ovCX`, where
only the direction b → a is present, the collision pair ("a", "b") is
processed without error, but the present direction b → a is NOT removed — the
first `del` raises `KeyError` and the `except` clause skips the second `del`.
This refutes "the other direction present in the index is still removed". -/
theorem C2_counterexample :
    (ovOf (processFile (subLookup subsCX) ovCX fCX)).map
        (fun ov => lookup2 ov.submission_ids_to_comparison_file_name "b" "a")
      = some (some "a-b.json") := by decide

/-- Claim C2 (amended): the filter prunes the pairwise index with a single
`try`/`except KeyError` block; absence of a direction is tolerated without
error, and when the first direction id1 → id2 is present both directions end
up removed with all other bindings untouched, but when id1 → id2 is absent the
whole block is a no-op and a present id2 → id1 binding is NOT removed. -/
theorem C2_index_pruning (idx : Index) (submission_id1 submission_id2 : String) :
    (lookup2 idx submission_id1 submission_id2 = none →
      delPair idx submission_id1 submission_id2 = idx) ∧
    ∀ m, lookup2 idx submission_id1 submission_id2 = some m →
      lookup2 (delPair idx submission_id1 submission_id2)
        submission_id1 submission_id2 = none ∧
      lookup2 (delPair idx submission_id1 submission_id2)
        submission_id2 submission_id1 = none ∧
      ∀ a b, ¬(a = submission_id1 ∧ b = submission_id2) →
        ¬(a = submission_id2 ∧ b = submission_id1) →
        lookup2 (delPair idx submission_id1 submission_id2) a b = lookup2 idx a b :=
  delPair_lookup2 idx submission_id1 submission_id2

/-- Claim C2 witness: on the symmetric index `idxW3` both directions of the
pair ("a", "b") are removed. -/
theorem C2_witness :
    lookup2 (delPair idxW3 "a" "b") "a" "b" = none ∧
    lookup2 (delPair idxW3 "a" "b") "b" "a" = none := by
  obtain ⟨h1, h2, -⟩ := (C2_index_pruning idxW3 "a" "b").2 "a-b.json" (by decide)
  exact ⟨h1, h2⟩

/-- Claim C3 counterexample: starting from the partially pruned (asymmetric)
index of `arcCX` — a state the spec explicitly tolerates — post-processing
succeeds, the comparison entry "a-b.json" is removed from the archive, yet the
index of the produced overview still references it under b → a. -/
theorem C3_counterexample :
    (minOf (postProcess subsCX arcCX)).map
        (fun out =>
          (lookup2 out.overview.submission_ids_to_comparison_file_name "b" "a",
           out.files.map ScratchFile.name))
      = some (some "a-b.json", []) := by decide

/-- Claim C3 (amended): if the input index is symmetric and every reference in
it points at a comparison entry of the input archive (named by the reference,
with a stem encoding the same pair), then after post-processing every pair
referenced in the index corresponds to an entry surviving into the output
archive; no reference to a removed pair remains. -/
theorem C3_index_consistency (subs : List PyPlagSubmission) (arc : Archive)
    (out : MinArchive) (ov : Overview)
    (hov : arc.overview = some ov)
    (hsym : symIdx ov.submission_ids_to_comparison_file_name)
    (href : refsValid ov.submission_ids_to_comparison_file_name arc.files)
    (hrun : postProcess subs arc = .ok out) :
    ∀ a b n,
      lookup2 out.overview.submission_ids_to_comparison_file_name a b = some n →
      ∃ f, f ∈ out.files ∧ f.name = n := by
  obtain ⟨ov0, hov0, ops, hrl⟩ := postProcess_ok_inv subs arc out hrun
  rw [hov] at hov0
  simp only [Option.some.injEq] at hov0
  subst hov0
  have href' : refsValid ov.submission_ids_to_comparison_file_name
      (arc.files ++ []) := by
    rw [List.append_nil]; exact href
  obtain ⟨-, hr⟩ := runLoop_refs (subLookup subs) arc.files [] ov out.overview
    out.files ops hrl hsym href'
  intro a b n hl
  obtain ⟨f, hf, hname, -⟩ := hr a b n hl
  rw [List.append_nil] at hf
  exact ⟨f, hf, hname⟩

/-- Claim C4: for every pair of submissions (A, B) whose authors are equal,
after a successful post-processing run the output archive contains no
comparison entry whose stem encodes A-B or B-A (the collision entry itself was
unlinked).  The side condition `hstem` records that non-comparison entries
(the ignore list) never have a two-component stem, which holds for the fixed
ignore list of the code. -/
theorem C4_collision_removed (subs : List PyPlagSubmission) (arc : Archive)
    (out : MinArchive) (A B : String) (sA sB : PyPlagSubmission)
    (hA : subLookup subs A = some sA) (hB : subLookup subs B = some sB)
    (hauth : sA.author = sB.author)
    (hstem : ∀ f ∈ arc.files, f.name ∈ ignoreFiles → splitPair f.stem = none)
    (hrun : postProcess subs arc = .ok out) :
    ∀ f' ∈ out.files,
      splitPair f'.stem ≠ some (A, B) ∧ splitPair f'.stem ≠ some (B, A) := by
  intro f' hf'
  obtain ⟨ov, hov, ops, hrl⟩ := postProcess_ok_inv subs arc out hrun
  obtain ⟨hmem, hp⟩ := runLoop_kept_mem (subLookup subs) arc.files ov
    out.overview out.files ops hrl f' hf'
  rcases hp with hignored | ⟨id1, id2, s1, s2, hsp, h1, h2, hne⟩
  · rw [hstem f' hmem hignored]
    exact ⟨by simp, by simp⟩
  · constructor
    · intro hc
      rw [hsp] at hc
      simp only [Option.some.injEq, Prod.mk.injEq] at hc
      obtain ⟨rfl, rfl⟩ := hc
      rw [h1] at hA
      rw [h2] at hB
      simp only [Option.some.injEq] at hA hB
      subst hA; subst hB
      exact hne hauth
    · intro hc
      rw [hsp] at hc
      simp only [Option.some.injEq, Prod.mk.injEq] at hc
      obtain ⟨rfl, rfl⟩ := hc
      rw [h1] at hB
      rw [h2] at hA
      simp only [Option.some.injEq] at hA hB
      subst hA; subst hB
      exact hne hauth.symm

/-- Claim C4 witness: in the `arcW5` run, where "one" and "two" share author
"t1", no entry of the minimized archive has stem one-two or two-one. -/
theorem C4_witness :
    (splitPair fW5b.stem ≠ some ("one", "two") ∧
     splitPair fW5b.stem ≠ some ("two", "one")) ∧
    (splitPair fW5c.stem ≠ some ("one", "two") ∧
     splitPair fW5c.stem ≠ some ("two", "one")) := by
  have h := C4_collision_removed subsW arcW5 outW5 "one" "two" subOne subTwo
    (by decide) (by decide) (by decide) (by decide) (by decide)
  exact ⟨h fW5b (by decide), h fW5c (by decide)⟩

/-- Claim C3 witness: the symmetric, reference-valid archive `arcW3` (authors
differ, so nothing is removed) satisfies the consistency conclusion; in
particular the reference a → b still points at the surviving entry. -/
theorem C3_witness :
    lookup2 outW3.overview.submission_ids_to_comparison_file_name "a" "b" =
      some "a-b.json" ∧
    ∃ f, f ∈ outW3.files ∧ f.name = "a-b.json" := by
  have hsym : symIdx ovW3.submission_ids_to_comparison_file_name := by
    intro a b n hl
    obtain ⟨inner, hmem, hmem2⟩ := lookup2_some_mem _ a b n hl
    simp only [ovW3, idxW3, List.mem_cons, List.not_mem_nil, or_false] at hmem
    rcases hmem with hmem | hmem <;>
      (rw [Prod.mk.injEq] at hmem
       obtain ⟨rfl, rfl⟩ := hmem
       simp only [List.mem_cons, List.not_mem_nil, or_false, Prod.mk.injEq] at hmem2
       obtain ⟨rfl, rfl⟩ := hmem2
       decide)
  have href : refsValid ovW3.submission_ids_to_comparison_file_name arcW3.files := by
    intro a b n hl
    obtain ⟨inner, hmem, hmem2⟩ := lookup2_some_mem _ a b n hl
    simp only [ovW3, idxW3, List.mem_cons, List.not_mem_nil, or_false] at hmem
    rcases hmem with hmem | hmem <;>
      (rw [Prod.mk.injEq] at hmem
       obtain ⟨rfl, rfl⟩ := hmem
       simp only [List.mem_cons, List.not_mem_nil, or_false, Prod.mk.injEq] at hmem2
       obtain ⟨rfl, rfl⟩ := hmem2
       exact ⟨fW3, by decide, by decide, by decide⟩)
  exact ⟨by decide,
    C3_index_consistency subsW3 arcW3 outW3 ovW3 rfl hsym href (by decide)
      "a" "b" "a-b.json" (by decide)⟩

/-- Claim C5: for a collision pair (id1, id2) processed in a successful run,
no descriptor of the final top_comparisons has {first_submission,
second_submission} equal (as an unordered pair) to {id1, id2}; moreover the
filter used by the code removes exactly the descriptors whose unordered pair
matches, regardless of which id appears as first_submission. -/
theorem C5_top_comparisons (subs : List PyPlagSubmission) (arc : Archive)
    (out : MinArchive) (f : ScratchFile) (id1 id2 : String)
    (s1 s2 : PyPlagSubmission)
    (hrun : postProcess subs arc = .ok out)
    (hf : f ∈ arc.files) (hig : f.name ∉ ignoreFiles)
    (hsp : splitPair f.stem = some (id1, id2))
    (h1 : subLookup subs id1 = some s1) (h2 : subLookup subs id2 = some s2)
    (heq : s1.author = s2.author) :
    (∀ c ∈ out.overview.top_comparisons,
      ({c.first_submission, c.second_submission} : Multiset String) ≠ {id1, id2}) ∧
    (∀ (l : List TopComparison) (c : TopComparison),
      c ∈ l.filter (filter_comparison id1 id2) ↔
        c ∈ l ∧
          ({c.first_submission, c.second_submission} : Multiset String) ≠ {id1, id2}) := by
  constructor
  · intro c hc
    obtain ⟨ov, hov, ops, hrl⟩ := postProcess_ok_inv subs arc out hrun
    have hkeep := runLoop_collision_top (subLookup subs) arc.files ov out.overview
      out.files ops f id1 id2 s1 s2 hrl hf hig hsp h1 h2 heq c hc
    exact (filter_comparison_true_iff_pair_ne id1 id2 c).mp hkeep
  · intro l c
    rw [List.mem_filter, filter_comparison_true_iff_pair_ne]

/-- Claim C5 witness: in the `arcW5` run the descriptor ("two", "one") —
stored in reversed order — is removed, and the surviving top list references
no pair {one, two}. -/
theorem C5_witness :
    ({"one", "three"} : Multiset String) ≠ {"one", "two"} ∧
    (TopComparison.mk "one" "three") ∈ outW5.overview.top_comparisons := by
  have h := (C5_top_comparisons subsW arcW5 outW5 fW5 "one" "two" subOne subTwo
    (by decide) (by decide) (by decide) (by decide) (by decide) (by decide)
    (by decide)).1
  exact ⟨h ⟨"one", "three"⟩ (by decide), by decide⟩

/-- Claim C6: a comparison entry whose two submissions have different authors
is untouched: whatever the overview state, processing it performs no file
operation, keeps it, and leaves the overview (distributions, index,
top_comparisons) unchanged; the very record — content included — survives into
the output archive. -/
theorem C6_noncollision_untouched (subs : List PyPlagSubmission) (arc : Archive)
    (out : MinArchive) (f : ScratchFile) (id1 id2 : String)
    (s1 s2 : PyPlagSubmission)
    (hf : f ∈ arc.files) (hig : f.name ∉ ignoreFiles)
    (hsp : splitPair f.stem = some (id1, id2))
    (h1 : subLookup subs id1 = some s1) (h2 : subLookup subs id2 = some s2)
    (hne : s1.author ≠ s2.author)
    (hrun : postProcess subs arc = .ok out) :
    (∀ ov₀ : Overview, processFile (subLookup subs) ov₀ f = .ok (ov₀, true, [])) ∧
    f ∈ out.files := by
  have hstay : ∀ ov₀ : Overview,
      processFile (subLookup subs) ov₀ f = .ok (ov₀, true, []) :=
    fun ov₀ => processFile_noncollision _ ov₀ f id1 id2 s1 s2 hig hsp h1 h2 hne
  obtain ⟨ov, hov, ops, hrl⟩ := postProcess_ok_inv subs arc out hrun
  exact ⟨hstay, runLoop_mem_kept _ arc.files ov out.overview out.files ops
    hrl f hf hstay⟩

/-- Claim C6 witness: the entry "one-three.json" (authors "t1" vs "t2") of the
`arcW5` run is untouched and survives unchanged. -/
theorem C6_witness :
    (∀ ov₀ : Overview,
      processFile (subLookup subsW) ov₀ fW5b = .ok (ov₀, true, [])) ∧
    fW5b ∈ outW5.files :=
  C6_noncollision_untouched subsW arcW5 outW5 fW5b "one" "three" subOne subThree
    (by decide) (by decide) (by decide) (by decide) (by decide) (by decide)
    (by decide)

/-- Claim C7: each fatal condition — missing/unreadable overview document, an
entry name that does not split into exactly two components, or a comparison
entry referencing an unknown submission id — makes the whole post-processing
step fail: `postProcess` returns an error and no minimized archive value is
produced (and being a pure function of `arc`, it never mutates the input
archive). -/
theorem C7_fail_closed (subs : List PyPlagSubmission) (arc : Archive)
    (h : arc.overview = none ∨
      (∃ f, f ∈ arc.files ∧ f.name ∉ ignoreFiles ∧ splitPair f.stem = none) ∨
      (∃ f id1 id2, f ∈ arc.files ∧ f.name ∉ ignoreFiles ∧
        splitPair f.stem = some (id1, id2) ∧
        (subLookup subs id1 = none ∨ subLookup subs id2 = none))) :
    isOkPP (postProcess subs arc) = false := by
  cases hpp : postProcess subs arc with
  | error e => rfl
  | ok out =>
    exfalso
    obtain ⟨ov, hov, ops, hrl⟩ := postProcess_ok_inv subs arc out hpp
    rcases h with h | ⟨f, hf, hig, hsp⟩ | ⟨f, id1, id2, hf, hig, hsp, hlk⟩
    · rw [h] at hov
      exact absurd hov (by simp)
    · obtain ⟨id1, id2, s1, s2, hsp', -, -⟩ := runLoop_ok_processed (subLookup subs)
        arc.files ov out.overview out.files ops hrl f hf hig
      rw [hsp'] at hsp
      exact absurd hsp (by simp)
    · obtain ⟨id1', id2', s1, s2, hsp', h1', h2'⟩ := runLoop_ok_processed
        (subLookup subs) arc.files ov out.overview out.files ops hrl f hf hig
      rw [hsp'] at hsp
      simp only [Option.some.injEq, Prod.mk.injEq] at hsp
      obtain ⟨h1eq, h2eq⟩ := hsp
      subst h1eq; subst h2eq
      rcases hlk with hlk | hlk
      · rw [h1'] at hlk
        exact absurd hlk (by simp)
      · rw [h2'] at hlk
        exact absurd hlk (by simp)

/-- Claim C7 witness: an archive missing the overview document produces no
minimized archive. -/
theorem C7_witness : isOkPP (postProcess [] (Archive.mk none [])) = false :=
  C7_fail_closed [] (Archive.mk none []) (.inl rfl)

/-- Claim C8: when the detector exits with a nonzero status, post-processing
is not executed (the result is the same whatever its hypothetical outcome
`post` would be) and the returned report carries the detector's status,
stdout and stderr, with `report_min_path = None`. -/
theorem C8_nonzero_status (settings : PyPlagSettings) (result : DetectorResult)
    (report : String) (h : result.returncode ≠ 0) :
    ∀ post, runFinish settings result report post =
      .ok ⟨result.returncode, result.stdout, result.stderr, report, none⟩ := by
  intro post
  unfold runFinish
  rw [if_neg h]

/-- Claim C8 witness: with exit status 1 the report is the same whether
post-processing would have failed or succeeded, and has no minimized path. -/
theorem C8_witness :
    runFinish settingsW resW8 "python3.jplag"
        (Except.error PPError.malformedOverview) =
      .ok ⟨1, "out", "err", "python3.jplag", none⟩ ∧
    runFinish settingsW resW8 "python3.jplag" (Except.ok ("a", "b")) =
      .ok ⟨1, "out", "err", "python3.jplag", none⟩ := by
  constructor
  · exact C8_nonzero_status settingsW resW8 "python3.jplag" (by decide) _
  · exact C8_nonzero_status settingsW resW8 "python3.jplag" (by decide) _

/-- Claim C9 (code bug): at the concrete collision entry `fW5` the operation
trace of the implementation is read, then overwrite with the zeroed record,
then unlink — the entry is NOT deleted directly without first overwriting its
content (main.py lines 150-167 keep the redundant overwrite the spec says to
drop). -/
theorem C9_overwrite_before_unlink :
    opsOf (processFile (subLookup subsW) ovW5 fW5) =
      some [FileOp.readJson "one-two.json",
            FileOp.writeZeroed "one-two.json" "one" "two",
            FileOp.unlink "one-two.json"] := by decide

/-- Claim C10: constructing a `PyPlag` instance deletes the report directory
recursively whenever it exists: afterwards no path at or below
`settings.report_dir` exists (the directory and all its contents are gone),
while paths outside it are preserved.  This happens in `__init__`, before any
run is requested. -/
theorem C10_init_rmtree (settings : PyPlagSettings) (fs : List (List String))
    (hex : pathExists fs settings.report_dir = true) :
    (∀ q ∈ pyplagInitFs settings fs, settings.report_dir.isPrefixOf q = false) ∧
    (∀ q ∈ fs, settings.report_dir.isPrefixOf q = false →
      q ∈ pyplagInitFs settings fs) ∧
    pathExists (pyplagInitFs settings fs) settings.report_dir = false := by
  unfold pyplagInitFs
  rw [if_pos hex]
  refine ⟨?_, ?_, ?_⟩
  · intro q hq
    unfold rmtreeFs at hq
    rw [List.mem_filter] at hq
    simpa using hq.2
  · intro q hq hpre
    unfold rmtreeFs
    rw [List.mem_filter]
    exact ⟨hq, by simp [hpre]⟩
  · cases hval : pathExists (rmtreeFs fs settings.report_dir) settings.report_dir
    · rfl
    · exfalso
      unfold pathExists at hval
      rw [List.any_eq_true] at hval
      obtain ⟨q, hq, hpre⟩ := hval
      unfold rmtreeFs at hq
      rw [List.mem_filter] at hq
      have hfalse := hq.2
      simp only [Bool.not_eq_true'] at hfalse
      rw [hpre] at hfalse
      exact Bool.noConfusion hfalse

/-- Claim C10 witness: with the report directory "reports" present (holding a
report file), construction removes it and its contents but keeps "other/x". -/
theorem C10_witness :
    (∀ q ∈ pyplagInitFs settingsW fsW10,
      settingsW.report_dir.isPrefixOf q = false) ∧
    (∀ q ∈ fsW10, settingsW.report_dir.isPrefixOf q = false →
      q ∈ pyplagInitFs settingsW fsW10) ∧
    pathExists (pyplagInitFs settingsW fsW10) settingsW.report_dir = false :=
  C10_init_rmtree settingsW fsW10 (by decide)
